import Mathlib

/-!
Shallow embedding of the host-side protocol codec implemented in
`firmware/instinct.py`, `firmware/memory.py` and `firmware/personality.py`.

Modelling conventions:
* Byte strings are `List Nat`; Python text strings are also `List Nat`
  (lists of character codes).
* Python floats are modelled as exact rationals `ℚ`.
* The transport (`NeuralUnit.send_cmd`, an external collaborator whose
  module is not part of this repository) is modelled environment-style:
  each operation returns the list of `(opcode, payload)` commands it hands
  to the transport, and takes the device reply as an explicit argument.
  An operation that raises before reaching `send_cmd` returns an empty
  send list, so "performs no transport I/O" is literally "send list `= []`".
* `hashlib.sha256` is an external library; the 8-byte digest used for
  subject hashes is abstracted as a `hashFn` parameter.  No claim depends
  on the digest contents.
-/

namespace Ruby

/-- Byte strings and character-code strings. -/
abbrev Bytes := List Nat

/-- A command handed to `NeuralUnit.send_cmd`: opcode and payload. -/
abbrev Send := Nat × Bytes

/-- Character codes of a string literal (used to spell ASCII identifiers). -/
def codes (s : String) : Bytes := s.data.map Char.toNat

/-- Python exceptions reachable in this codec layer.  `validationError` is
`ValueError` from the explicit argument checks (the ValidationError of the spec);
`encodingError` / `decodingError` are `UnicodeEncodeError` /
`UnicodeDecodeError` (the EncodingError / DecodingError of the spec);
`overflowError` is `OverflowError` from `int.to_bytes`. -/
inductive PyError
  | validationError
  | encodingError
  | decodingError
  | overflowError
deriving DecidableEq, Repr

/-- Python `int(x)` applied to a real value: truncation toward zero. -/
def pyInt (q : ℚ) : ℤ := if 0 ≤ q then ⌊q⌋ else ⌈q⌉

/-- Python `round(x)`: round half to even. -/
def pyRound (q : ℚ) : ℤ :=
  if 2 * (q - ⌊q⌋) = 1 then (if ⌊q⌋ % 2 = 0 then ⌊q⌋ else ⌊q⌋ + 1)
  else round q

/-- Python `round(x, 4)`. -/
def pyRound4 (q : ℚ) : ℚ := (pyRound (q * 10000) : ℚ) / 10000

/-- Big-endian base-256 digit string of `n`, `len` bytes long (the result of
`n.to_bytes(len, "big")` when that call succeeds). -/
def natToBytesBE (n len : Nat) : Bytes :=
  (List.range len).map (fun i => n / 256 ^ (len - 1 - i) % 256)

/-- Python `z.to_bytes(len, "big")`: `OverflowError` (`none`) when `z` is
negative or does not fit in `len` bytes. -/
def intToBytesBE (z : ℤ) (len : Nat) : Option Bytes :=
  if 0 ≤ z ∧ z < (256 : ℤ) ^ len then some (natToBytesBE z.toNat len) else none

/-- Python `int.from_bytes(bs, "big")`; an empty byte string yields 0. -/
def fromBytesBE (bs : Bytes) : Nat := bs.foldl (fun acc b => acc * 256 + b) 0

/-- Python `bs.rstrip(b"\x00")`: drop trailing zero bytes. -/
def rstripZeros (bs : Bytes) : Bytes := (bs.reverse.dropWhile (fun b => b == 0)).reverse

/-- Python `bs.decode("ascii")`: fails (`UnicodeDecodeError`) when some byte
is ≥ 128, otherwise the identity on character codes. -/
def decodeAsciiStrict (bs : Bytes) : Option Bytes :=
  if bs.all (fun b => b < 128) then some bs else none

/-- Python `bs.decode("ascii", errors="replace")`: each byte ≥ 128 becomes
U+FFFD (code 65533); never fails. -/
def decodeAsciiReplace (bs : Bytes) : Bytes :=
  bs.map (fun b => if b < 128 then b else 65533)

/-- Python `s.encode("ascii").ljust(w, b"\x00")[:w]`, the name-field encoder
shared by the three modules (width 16 for drive/trait names, width 24 for
event names): ASCII-validate, right-pad with zero bytes to `w`, truncate
silently to `w` bytes. -/
def encodeNameField (s : Bytes) (w : Nat) : Option Bytes :=
  if s.all (fun b => b < 128) then
    some ((s ++ List.replicate (w - s.length) 0).take w)
  else none

/-- The host-side mirror cache: a Python dict from name to value, insertion
ordered. -/
abbrev Cache := List (Bytes × ℚ)

/-- Python `d[k] = v` on an insertion-ordered dict: update in place when the
key exists, append otherwise. -/
def cacheInsert (c : Cache) (k : Bytes) (v : ℚ) : Cache :=
  if c.any (fun p => p.1 == k) then
    c.map (fun p => if p.1 == k then (k, v) else p)
  else c ++ [(k, v)]

/-- Python dict built from a record list by repeated assignment
(`result[name] = val` in the decode loops). -/
def dictOf (recs : List (Bytes × ℚ)) : Cache :=
  recs.foldl (fun c p => cacheInsert c p.1 p.2) []

/-- Opcodes, firmware protocol v3 (`instinct.py`, `memory.py`,
`personality.py`). -/
def CMD_SET_DRIVE : Nat := 0x20

def CMD_GET_DRIVE : Nat := 0x21

def CMD_LIST_DRIVES : Nat := 0x22

def CMD_ENCODE : Nat := 0x30

def CMD_RECALL : Nat := 0x31

def CMD_TRUST : Nat := 0x32

def CMD_MEM_WIPE : Nat := 0x3F

def CMD_TRAIT_GET : Nat := 0x40

def CMD_TRAIT_SET : Nat := 0x41

def CMD_TRAIT_SNAPSHOT : Nat := 0x42

def CMD_TRAIT_RESET : Nat := 0x4F

/-- `DEFAULT_DRIVES` table of `instinct.py`. -/
def DEFAULT_DRIVES : List (Bytes × ℚ) :=
  [(codes "curiosity", 7/10), (codes "social", 85/100), (codes "rest", 4/10),
   (codes "hunger", 5/10), (codes "play", 75/100), (codes "self_preserve", 9/10)]

/-- `DEFAULT_TRAITS` table of `personality.py`. -/
def DEFAULT_TRAITS : List (Bytes × ℚ) :=
  [(codes "bold", 5/10), (codes "playful", 6/10), (codes "cautious", 5/10),
   (codes "affectionate", 6/10), (codes "vocal", 5/10), (codes "independent", 4/10)]

/-- `InstinctModel.set_drive(name, weight)`: validate `0.0 <= weight <= 1.0`
(`ValueError` otherwise, before any encoding), encode the name into the
16-byte field, append `int(weight * 65535).to_bytes(2, "big")`, send
`CMD_SET_DRIVE`, then update the cache. -/
def InstinctModel.set_drive (cache : Cache) (name : Bytes) (weight : ℚ) :
    List Send × Cache × Option PyError :=
  if ¬ (0 ≤ weight ∧ weight ≤ 1) then ([], cache, some .validationError)
  else
    match encodeNameField name 16 with
    | none => ([], cache, some .encodingError)
    | some nb =>
      match intToBytesBE (pyInt (weight * 65535)) 2 with
      | none => ([], cache, some .overflowError)
      | some wb =>
        ([(CMD_SET_DRIVE, nb ++ wb)], cacheInsert cache name weight, none)

/-- `InstinctModel.get_drive(name)`: send the 16-byte name field under
`CMD_GET_DRIVE`, then decode `raw[:2]` big-endian over 65535.0 (the reply is
the explicit `reply` argument; `raw[:2]` is `reply.take 2`, which is shorter
than 2 bytes when the reply is). -/
def InstinctModel.get_drive (cache : Cache) (name : Bytes) (reply : Bytes) :
    List Send × Cache × Except PyError ℚ :=
  match encodeNameField name 16 with
  | none => ([], cache, .error .encodingError)
  | some nb =>
    let val : ℚ := (fromBytesBE (reply.take 2) : ℚ) / 65535
    ([(CMD_GET_DRIVE, nb)], cacheInsert cache name val, .ok val)

/-- The decode loop over 18-byte named-value records, shared verbatim by
`InstinctModel.list_drives` (`post = id`) and `PersonalityEngine.snapshot`
(`post = pyRound4`, its `round(val, 4)`): walk the buffer in 18-byte chunks,
stop silently at a trailing chunk shorter than 18 bytes, zero-strip and
strictly ASCII-decode the 16-byte name field (a byte ≥ 128 raises
`UnicodeDecodeError`), decode the 2-byte value field big-endian over
65535.0.  Records are produced in order of appearance in the buffer. -/
def decodeNamedRecords (post : ℚ → ℚ) (buf : Bytes) :
    Except PyError (List (Bytes × ℚ)) :=
  if h : buf.length < 18 then .ok []
  else
    let chunk := buf.take 18
    match decodeAsciiStrict (rstripZeros (chunk.take 16)) with
    | none => .error .decodingError
    | some name =>
      let val : ℚ := (fromBytesBE ((chunk.drop 16).take 2) : ℚ) / 65535
      match decodeNamedRecords post (buf.drop 18) with
      | .error e => .error e
      | .ok rest => .ok ((name, post val) :: rest)
termination_by buf.length
decreasing_by simp [List.length_drop]; omega

/-- `InstinctModel.list_drives()`: send `CMD_LIST_DRIVES` with empty payload,
decode the 18-byte records of the reply into a dict, merge it into the cache. -/
def InstinctModel.list_drives (cache : Cache) (reply : Bytes) :
    List Send × Cache × Except PyError Cache :=
  match decodeNamedRecords id reply with
  | .error e => ([(CMD_LIST_DRIVES, [])], cache, .error e)
  | .ok recs =>
    let result := dictOf recs
    ([(CMD_LIST_DRIVES, [])],
      result.foldl (fun c p => cacheInsert c p.1 p.2) cache, .ok result)

/-- `PersonalityEngine.get(trait)`: send the 16-byte trait name under
`CMD_TRAIT_GET`, decode `raw[:2]` big-endian over 65535.0. -/
def PersonalityEngine.get (trait : Bytes) (reply : Bytes) :
    List Send × Except PyError ℚ :=
  match encodeNameField trait 16 with
  | none => ([], .error .encodingError)
  | some tb =>
    ([(CMD_TRAIT_GET, tb)], .ok ((fromBytesBE (reply.take 2) : ℚ) / 65535))

/-- `PersonalityEngine.set(trait, value)`: validate `0.0 <= value <= 1.0`
(`ValueError` otherwise), send 16-byte name plus
`int(value * 65535).to_bytes(2, "big")` under `CMD_TRAIT_SET`. -/
def PersonalityEngine.set (trait : Bytes) (value : ℚ) :
    List Send × Option PyError :=
  if ¬ (0 ≤ value ∧ value ≤ 1) then ([], some .validationError)
  else
    match encodeNameField trait 16 with
    | none => ([], some .encodingError)
    | some tb =>
      match intToBytesBE (pyInt (value * 65535)) 2 with
      | none => ([], some .overflowError)
      | some vb => ([(CMD_TRAIT_SET, tb ++ vb)], none)

/-- `PersonalityEngine.snapshot()`: send `CMD_TRAIT_SNAPSHOT` with empty
payload, decode 18-byte records with values rounded to 4 digits. -/
def PersonalityEngine.snapshot (reply : Bytes) :
    List Send × Except PyError Cache :=
  match decodeNamedRecords pyRound4 reply with
  | .error e => ([(CMD_TRAIT_SNAPSHOT, [])], .error e)
  | .ok recs => ([(CMD_TRAIT_SNAPSHOT, [])], .ok (dictOf recs))

/-- `PersonalityEngine.reset()`: `CMD_TRAIT_RESET` with sentinel `DE AD`. -/
def PersonalityEngine.reset : List Send := [(CMD_TRAIT_RESET, [0xDE, 0xAD])]

/-- `EVENT_NAMES` of `memory.py` (a Python set; modelled as a list, only
membership is used). -/
def MemoryStore.EVENT_NAMES : List Bytes :=
  [codes "pet_detected", codes "face_seen", codes "object_seen",
   codes "touch_head", codes "touch_back", codes "touch_chin",
   codes "touch_paw", codes "tail_grab", codes "loud_noise",
   codes "darkness", codes "picked_up", codes "put_down",
   codes "fed", codes "play_initiated", codes "ignored"]

/-- Payload construction of `MemoryStore.encode` after the event-name
validation (split out of `MemoryStore.encode` below purely for proof
convenience): 24-byte event name field; 8-byte uid digest;
`int((valence + 1.0) / 2.0 * 65535).to_bytes(2, "big")` — there is no range
check on `valence`; `ts.to_bytes(4, "big")`; then send `CMD_ENCODE`. -/
def MemoryStore.encodeBody (hashFn : Bytes → Bytes) (event uid : Bytes)
    (valence : ℚ) (ts : ℤ) : Except PyError Send :=
  match encodeNameField event 24 with
  | none => .error .encodingError
  | some ev =>
    let uidHash := hashFn uid
    match intToBytesBE (pyInt ((valence + 1) / 2 * 65535)) 2 with
    | none => .error .overflowError
    | some vb =>
      match intToBytesBE ts 4 with
      | none => .error .overflowError
      | some tb => .ok (CMD_ENCODE, ev ++ uidHash ++ vb ++ tb)

/-- `MemoryStore.encode(event, uid, valence, timestamp=None)`: reject unknown
event names (`ValueError`, before anything else); `ts = int(timestamp or
time.time())`, so a supplied timestamp equal to 0 (falsy in Python) is
replaced by the current time `now`; then build and send the episodic record
(see `MemoryStore.encodeBody`).  A `.ok` result is the single command sent;
an `.error` result means the exception fired before `send_cmd`, i.e. before
any transport I/O. -/
def MemoryStore.encode (hashFn : Bytes → Bytes) (event uid : Bytes)
    (valence : ℚ) (timestamp : Option ℚ) (now : ℚ) : Except PyError Send :=
  if event ∉ MemoryStore.EVENT_NAMES then .error .validationError
  else
    MemoryStore.encodeBody hashFn event uid valence
      (pyInt (match timestamp with
        | some t => if t = 0 then now else t
        | none => now))

/-- The decode loop of `MemoryStore.recall`: 38-byte episodic records
(24-byte name, 8-byte hash, 2-byte valence, 4-byte timestamp); the name is
zero-stripped and ASCII-decoded with `errors="replace"` (never fails);
valence is mapped back through the affine bipolar decode and rounded to 4
digits; a trailing chunk shorter than 38 bytes stops the loop. -/
def decodeEpisodicRecords (buf : Bytes) : List (Bytes × ℚ × Nat) :=
  if h : buf.length < 38 then []
  else
    let chunk := buf.take 38
    let name := decodeAsciiReplace (rstripZeros (chunk.take 24))
    let valence : ℚ := (fromBytesBE ((chunk.drop 32).take 2) : ℚ) / 65535 * 2 - 1
    let ts := fromBytesBE ((chunk.drop 34).take 4)
    (name, pyRound4 valence, ts) :: decodeEpisodicRecords (buf.drop 38)
termination_by buf.length
decreasing_by simp [List.length_drop]; omega

/-- `MemoryStore.recall(limit)`: send `CMD_RECALL` with the 2-byte limit,
decode the reply as 38-byte episodic records. -/
def MemoryStore.recall (limit : ℤ) (reply : Bytes) :
    Except PyError (List Send × List (Bytes × ℚ × Nat)) :=
  match intToBytesBE limit 2 with
  | none => .error .overflowError
  | some pl => .ok ([(CMD_RECALL, pl)], decodeEpisodicRecords reply)

/-- `MemoryStore.get_trust(uid)`: send the 8-byte uid digest under
`CMD_TRUST`; a reply shorter than 2 bytes yields 0.0, otherwise decode
`raw[:2]` big-endian over 65535.0.  No exception is reachable. -/
def MemoryStore.get_trust (hashFn : Bytes → Bytes) (uid : Bytes)
    (reply : Bytes) : List Send × ℚ :=
  ([(CMD_TRUST, hashFn uid)],
    if reply.length < 2 then 0 else (fromBytesBE (reply.take 2) : ℚ) / 65535)

/-- `MemoryStore.wipe()`: `CMD_MEM_WIPE` with sentinel `DE AD`. -/
def MemoryStore.wipe : List Send := [(CMD_MEM_WIPE, [0xDE, 0xAD])]

/-- Decoding of one full 18-byte named-value chunk, as performed inside the
loop of `decodeNamedRecords` (name: zero-stripped first 16 bytes; value:
bytes 16..18 big-endian over 65535.0, post-processed). -/
def namedRecordOfChunk (post : ℚ → ℚ) (chunk : Bytes) : Bytes × ℚ :=
  (rstripZeros (chunk.take 16),
   post ((fromBytesBE ((chunk.drop 16).take 2) : ℚ) / 65535))

section Lemmas

/-! Supporting lemmas about the byte-level helpers. -/

lemma fromBytesBE_natToBytesBE_two (m : Nat) (h : m < 65536) :
    fromBytesBE (natToBytesBE m 2) = m := by
  simp [natToBytesBE, fromBytesBE, List.range_succ]
  omega

lemma fromBytesBE_natToBytesBE_four (m : Nat) (h : m < 4294967296) :
    fromBytesBE (natToBytesBE m 4) = m := by
  simp [natToBytesBE, fromBytesBE, List.range_succ]
  omega

lemma length_natToBytesBE (m k : Nat) : (natToBytesBE m k).length = k := by
  simp [natToBytesBE]

lemma pyInt_of_nonneg (q : ℚ) (h : 0 ≤ q) : pyInt q = ⌊q⌋ := if_pos h

lemma floor_unit_bounds (v : ℚ) (h0 : 0 ≤ v) (h1 : v ≤ 1) :
    0 ≤ ⌊v * 65535⌋ ∧ ⌊v * 65535⌋ < 65536 := by
  constructor
  · exact Int.floor_nonneg.mpr (by positivity)
  · have hle : v * 65535 ≤ 65535 := by nlinarith
    have := Int.floor_le_floor hle
    have h65 : ⌊(65535 : ℚ)⌋ = 65535 := by norm_num
    omega

lemma encodeNameField_of_ascii (s : Bytes) (w : Nat)
    (h : s.all (fun b => b < 128) = true) :
    encodeNameField s w = some ((s ++ List.replicate (w - s.length) 0).take w) := by
  rw [encodeNameField, if_pos h]

lemma intToBytesBE_two (z : ℤ) (h0 : 0 ≤ z) (h1 : z < 65536) :
    intToBytesBE z 2 = some (natToBytesBE z.toNat 2) := by
  rw [intToBytesBE, if_pos ⟨h0, lt_of_lt_of_eq h1 (by norm_num)⟩]

lemma intToBytesBE_four (z : ℤ) (h0 : 0 ≤ z) (h1 : z < 4294967296) :
    intToBytesBE z 4 = some (natToBytesBE z.toNat 4) := by
  rw [intToBytesBE, if_pos ⟨h0, lt_of_lt_of_eq h1 (by norm_num)⟩]

lemma intToBytesBE_none (z : ℤ) (len : Nat)
    (h : z < 0 ∨ (256 : ℤ) ^ len ≤ z) : intToBytesBE z len = none := by
  rw [intToBytesBE, if_neg]
  rcases h with h | h
  · exact fun hh => absurd hh.1 (not_le.mpr h)
  · exact fun hh => absurd hh.2 (not_lt.mpr h)

lemma set_drive_ok (cache : Cache) (name : Bytes) (v : ℚ)
    (hn : name.all (fun b => b < 128) = true) (h0 : 0 ≤ v) (h1 : v ≤ 1) :
    InstinctModel.set_drive cache name v =
      ([(CMD_SET_DRIVE, (name ++ List.replicate (16 - name.length) 0).take 16 ++
          natToBytesBE (⌊v * 65535⌋).toNat 2)], cacheInsert cache name v, none) := by
  obtain ⟨hb0, hb1⟩ := floor_unit_bounds v h0 h1
  rw [InstinctModel.set_drive, if_neg (not_not_intro ⟨h0, h1⟩),
    encodeNameField_of_ascii name 16 hn, pyInt_of_nonneg _ (by positivity),
    intToBytesBE_two _ hb0 (by omega)]

lemma trait_set_ok (trait : Bytes) (v : ℚ)
    (hn : trait.all (fun b => b < 128) = true) (h0 : 0 ≤ v) (h1 : v ≤ 1) :
    PersonalityEngine.set trait v =
      ([(CMD_TRAIT_SET, (trait ++ List.replicate (16 - trait.length) 0).take 16 ++
          natToBytesBE (⌊v * 65535⌋).toNat 2)], none) := by
  obtain ⟨hb0, hb1⟩ := floor_unit_bounds v h0 h1
  rw [PersonalityEngine.set, if_neg (not_not_intro ⟨h0, h1⟩),
    encodeNameField_of_ascii trait 16 hn, pyInt_of_nonneg _ (by positivity),
    intToBytesBE_two _ hb0 (by omega)]

lemma get_drive_ok (cache : Cache) (name reply : Bytes)
    (hn : name.all (fun b => b < 128) = true) :
    InstinctModel.get_drive cache name reply =
      ([(CMD_GET_DRIVE, (name ++ List.replicate (16 - name.length) 0).take 16)],
        cacheInsert cache name ((fromBytesBE (reply.take 2) : ℚ) / 65535),
        .ok ((fromBytesBE (reply.take 2) : ℚ) / 65535)) := by
  rw [InstinctModel.get_drive, encodeNameField_of_ascii name 16 hn]

lemma event_names_ascii :
    ∀ e ∈ MemoryStore.EVENT_NAMES, e.all (fun b => b < 128) = true := by decide

lemma pyInt_bipolar_bounds (v : ℚ) (h0 : -1 ≤ v) (h1 : v ≤ 1) :
    0 ≤ pyInt ((v + 1) / 2 * 65535) ∧ pyInt ((v + 1) / 2 * 65535) < 65536 := by
  have hv1 : 0 ≤ v + 1 := by linarith
  have hnn : 0 ≤ (v + 1) / 2 * 65535 :=
    mul_nonneg (div_nonneg hv1 (by norm_num)) (by norm_num)
  rw [pyInt_of_nonneg _ hnn]
  constructor
  · exact Int.floor_nonneg.mpr hnn
  · have hle : (v + 1) / 2 * 65535 ≤ 65535 := by nlinarith
    have := Int.floor_le_floor hle
    have h65 : ⌊(65535 : ℚ)⌋ = 65535 := by norm_num
    omega

set_option maxHeartbeats 1600000 in
lemma encode_of_valid_event (hashFn : Bytes → Bytes) (event uid : Bytes)
    (v now : ℚ) (timestamp : Option ℚ)
    (hev : event ∈ MemoryStore.EVENT_NAMES) :
    MemoryStore.encode hashFn event uid v timestamp now =
      MemoryStore.encodeBody hashFn event uid v
        (pyInt (match timestamp with
          | some t => if t = 0 then now else t
          | none => now)) := by
  rw [MemoryStore.encode.eq_def, if_neg (not_not_intro hev)]

lemma encode_some_ne_zero (hashFn : Bytes → Bytes) (event uid : Bytes)
    (v t now : ℚ) (hev : event ∈ MemoryStore.EVENT_NAMES) (htz : ¬ t = 0) :
    MemoryStore.encode hashFn event uid v (some t) now =
      MemoryStore.encodeBody hashFn event uid v (pyInt t) := by
  rw [encode_of_valid_event hashFn event uid v now (some t) hev]
  dsimp only
  rw [if_neg htz]

lemma encodeBody_ok (hashFn : Bytes → Bytes) (event uid : Bytes) (v : ℚ)
    (ts : ℤ) (ha : event.all (fun b => b < 128) = true)
    (hq0 : 0 ≤ pyInt ((v + 1) / 2 * 65535))
    (hq1 : pyInt ((v + 1) / 2 * 65535) < 65536)
    (ht0 : 0 ≤ ts) (ht1 : ts < 4294967296) :
    MemoryStore.encodeBody hashFn event uid v ts =
      .ok (CMD_ENCODE,
        (event ++ List.replicate (24 - event.length) 0).take 24 ++
        hashFn uid ++ natToBytesBE (pyInt ((v + 1) / 2 * 65535)).toNat 2 ++
        natToBytesBE ts.toNat 4) := by
  rw [MemoryStore.encodeBody, encodeNameField_of_ascii _ 24 ha,
    intToBytesBE_two _ hq0 hq1, intToBytesBE_four _ ht0 ht1]

lemma encodeBody_overflow (hashFn : Bytes → Bytes) (event uid : Bytes)
    (v : ℚ) (ts : ℤ) (ha : event.all (fun b => b < 128) = true)
    (hq : pyInt ((v + 1) / 2 * 65535) < 0 ∨
      65535 < pyInt ((v + 1) / 2 * 65535)) :
    MemoryStore.encodeBody hashFn event uid v ts = .error .overflowError := by
  have hnone : intToBytesBE (pyInt ((v + 1) / 2 * 65535)) 2 = none := by
    apply intToBytesBE_none
    rcases hq with h | h
    · exact Or.inl h
    · right
      have h2 : (256 : ℤ) ^ 2 = 65536 := by norm_num
      omega
  rw [MemoryStore.encodeBody, encodeNameField_of_ascii _ 24 ha, hnone]

lemma rstripZeros_decomp (l : Bytes) :
    ∃ k, l = rstripZeros l ++ List.replicate k 0 := by
  refine ⟨(l.reverse.takeWhile (fun b => b == 0)).length, ?_⟩
  conv_lhs => rw [← List.reverse_reverse l,
    ← List.takeWhile_append_dropWhile (fun b => b == 0) l.reverse,
    List.reverse_append]
  rw [rstripZeros]
  congr 1
  have hz : ∀ b ∈ l.reverse.takeWhile (fun b => b == 0), b = 0 := by
    intro b hb
    simpa using List.mem_takeWhile_imp hb
  conv_lhs => rw [List.eq_replicate_of_mem hz, List.reverse_replicate]

lemma rstripZeros_append_zero (l : Bytes) :
    rstripZeros (l ++ [0]) = rstripZeros l := by
  rw [rstripZeros, rstripZeros, List.reverse_append]
  simp [List.dropWhile_cons]

lemma rstripZeros_append_replicate (l : Bytes) (k : Nat) :
    rstripZeros (l ++ List.replicate k 0) = rstripZeros l := by
  induction k with
  | zero => simp
  | succ n ih =>
      rw [List.replicate_succ', ← List.append_assoc, rstripZeros_append_zero, ih]

lemma mem_rstripZeros (l : Bytes) (b : Nat) (hb : b ∈ l) (hnz : b ≠ 0) :
    b ∈ rstripZeros l := by
  obtain ⟨k, hdec⟩ := rstripZeros_decomp l
  rw [hdec] at hb
  rcases List.mem_append.mp hb with h | h
  · exact h
  · exact absurd (List.eq_of_mem_replicate h) hnz

lemma rstripZeros_all (l : Bytes) (p : Nat → Bool) (h : l.all p = true) :
    (rstripZeros l).all p = true := by
  rw [List.all_eq_true] at h ⊢
  intro b hb
  obtain ⟨k, hdec⟩ := rstripZeros_decomp l
  exact h b (by rw [hdec]; exact List.mem_append.mpr (Or.inl hb))

lemma decodeAsciiStrict_of_ascii (l : Bytes) (h : l.all (fun b => b < 128) = true) :
    decodeAsciiStrict l = some l := by
  rw [decodeAsciiStrict, if_pos h]

lemma decodeAsciiStrict_of_invalid (l : Bytes) (b : Nat) (hb : b ∈ l)
    (h128 : 128 ≤ b) : decodeAsciiStrict l = none := by
  rw [decodeAsciiStrict, if_neg]
  intro hall
  rw [List.all_eq_true] at hall
  have := hall b hb
  simp at this
  omega

lemma take_pad_eq (n : Bytes) (w : Nat) :
    (n ++ List.replicate (w - n.length) 0).take w =
      n.take w ++ List.replicate (w - n.length) 0 := by
  rw [List.take_append_eq_append_take, List.take_replicate]
  congr 2
  omega

lemma decodeNamedRecords_ok (post : ℚ → ℚ) :
    ∀ (fuel : Nat) (buf : Bytes), buf.length ≤ fuel →
    (∀ k, k < buf.length / 18 →
      (rstripZeros ((buf.drop (18 * k)).take 16)).all (fun b => b < 128) = true) →
    decodeNamedRecords post buf =
      .ok ((List.range (buf.length / 18)).map (fun k =>
        namedRecordOfChunk post ((buf.drop (18 * k)).take 18))) := by
  intro fuel
  induction fuel with
  | zero =>
      intro buf hle _
      have hlen : buf.length = 0 := Nat.le_zero.mp hle
      rw [decodeNamedRecords, dif_pos (by omega), show buf.length / 18 = 0 by omega]
      rfl
  | succ m ih =>
      intro buf hle hascii
      by_cases h : buf.length < 18
      · rw [decodeNamedRecords, dif_pos h,
          show buf.length / 18 = 0 from Nat.div_eq_of_lt h]
        rfl
      · push_neg at h
        have hdiv : buf.length / 18 = (buf.length - 18) / 18 + 1 := by omega
        have h0 : (rstripZeros (buf.take 16)).all (fun b => b < 128) = true := by
          have := hascii 0 (by omega)
          simpa using this
        have hshift : ∀ k, k < (buf.drop 18).length / 18 →
            (rstripZeros (((buf.drop 18).drop (18 * k)).take 16)).all
              (fun b => b < 128) = true := by
          intro k hk
          rw [List.drop_drop, show 18 + 18 * k = 18 * (k + 1) from by ring]
          apply hascii (k + 1)
          rw [List.length_drop] at hk
          omega
        have ihd := ih (buf.drop 18) (by rw [List.length_drop]; omega) hshift
        rw [List.length_drop] at ihd
        have htail : (List.range ((buf.length - 18) / 18)).map
            (fun k => namedRecordOfChunk post
              (((buf.drop 18).drop (18 * k)).take 18)) =
          (List.range ((buf.length - 18) / 18)).map
            ((fun k => namedRecordOfChunk post ((buf.drop (18 * k)).take 18)) ∘
              Nat.succ) := by
          apply List.map_congr_left
          intro k hk
          simp only [Function.comp_apply, Nat.succ_eq_add_one]
          rw [List.drop_drop, show 18 + 18 * k = 18 * (k + 1) from by ring]
        rw [decodeNamedRecords, dif_neg (by omega)]
        dsimp only
        rw [List.take_take, show (16 ⊓ 18 : Nat) = 16 from rfl,
          decodeAsciiStrict_of_ascii _ h0, ihd, htail, hdiv,
          List.range_succ_eq_map, List.map_cons, List.map_map]
        simp [namedRecordOfChunk, List.take_take]

lemma decodeAsciiReplace_mem (l : Bytes) :
    ∀ c ∈ decodeAsciiReplace l, c < 128 ∨ c = 65533 := by
  intro c hc
  rw [decodeAsciiReplace, List.mem_map] at hc
  obtain ⟨b, -, rfl⟩ := hc
  by_cases hlt : b < 128
  · rw [if_pos hlt]
    exact Or.inl hlt
  · rw [if_neg hlt]
    exact Or.inr rfl

lemma decodeEpisodicRecords_events (fuel : Nat) :
    ∀ (buf : Bytes), buf.length ≤ fuel →
    ∀ r ∈ decodeEpisodicRecords buf, ∃ raw, r.1 = decodeAsciiReplace raw := by
  induction fuel with
  | zero =>
      intro buf hle r hr
      rw [decodeEpisodicRecords, dif_pos (by omega)] at hr
      simp at hr
  | succ m ih =>
      intro buf hle r hr
      by_cases h : buf.length < 38
      · rw [decodeEpisodicRecords, dif_pos h] at hr
        simp at hr
      · rw [decodeEpisodicRecords, dif_neg h] at hr
        dsimp only at hr
        rcases List.mem_cons.mp hr with hr | hr
        · exact ⟨_, by rw [hr]⟩
        · exact ih (buf.drop 38) (by rw [List.length_drop]; omega) r hr

end Lemmas

/-- C1, counterexample: at `v = 0.5` (exactly representable, so the float
code agrees with this rational model), `set_drive` sends the 2-byte value
`0x7FFF = 32767 = int(0.5 * 65535)`, whereas `round(0.5 * 65535) = 32768`
under round-half-up (Mathlib `round`) and under Python round-half-even
(`pyRound`) alike.  The claim that the wire integer equals
`round(v * 65535)` is therefore false: `int()` truncates. -/
theorem set_drive_truncates_not_rounds :
    (InstinctModel.set_drive [] (codes "x") (1/2)).1 =
      [(CMD_SET_DRIVE, (codes "x" ++ List.replicate 15 0) ++ [127, 255])] ∧
    fromBytesBE [127, 255] = 32767 ∧
    pyInt ((1/2 : ℚ) * 65535) = 32767 ∧
    round ((1/2 : ℚ) * 65535) = 32768 ∧
    pyRound ((1/2 : ℚ) * 65535) = 32768 := by
  have hf : ⌊(1/2 : ℚ) * 65535⌋ = 32767 := by norm_num
  refine ⟨?_, by decide, ?_, by norm_num [round_eq], ?_⟩
  · rw [set_drive_ok [] (codes "x") (1/2) (by decide) (by norm_num) (by norm_num),
      hf]
    decide
  · rw [pyInt_of_nonneg _ (by norm_num), hf]
  · rw [pyRound, hf, if_pos (by norm_num), if_neg (by decide)]
    decide

/-- C1, amended: for every UnitValue `v` with `0.0 ≤ v ≤ 1.0` and ASCII
name, the 2-byte big-endian integer encoded and sent on the wire by
`set_drive` (drives) and `set` (traits) equals `int(v * 65535)`, i.e.
`v * 65535` truncated toward zero (`⌊v * 65535⌋`, as `v ≥ 0`) — not
`round(v * 65535)`. -/
theorem unit_encode_sends_truncated (cache : Cache) (name : Bytes) (v : ℚ)
    (hn : name.all (fun b => b < 128) = true) (h0 : 0 ≤ v) (h1 : v ≤ 1) :
    InstinctModel.set_drive cache name v =
      ([(CMD_SET_DRIVE, (name ++ List.replicate (16 - name.length) 0).take 16 ++
          natToBytesBE (⌊v * 65535⌋).toNat 2)], cacheInsert cache name v, none) ∧
    PersonalityEngine.set name v =
      ([(CMD_TRAIT_SET, (name ++ List.replicate (16 - name.length) 0).take 16 ++
          natToBytesBE (⌊v * 65535⌋).toNat 2)], none) ∧
    pyInt (v * 65535) = ⌊v * 65535⌋ ∧
    (fromBytesBE (natToBytesBE (⌊v * 65535⌋).toNat 2) : ℤ) = ⌊v * 65535⌋ := by
  obtain ⟨hb0, hb1⟩ := floor_unit_bounds v h0 h1
  refine ⟨set_drive_ok cache name v hn h0 h1, trait_set_ok name v hn h0 h1,
    pyInt_of_nonneg _ (by positivity), ?_⟩
  rw [fromBytesBE_natToBytesBE_two _ (by omega)]
  omega

/-- Witness for the amended C1 at `v = 3/4`, name `"x"`. -/
theorem unit_encode_sends_truncated_witness :
    ((codes "x").all (fun b => b < 128) = true ∧ (0 : ℚ) ≤ 3/4 ∧ (3/4 : ℚ) ≤ 1) ∧
    (InstinctModel.set_drive [] (codes "x") (3/4) =
      ([(CMD_SET_DRIVE,
          (codes "x" ++ List.replicate (16 - (codes "x").length) 0).take 16 ++
          natToBytesBE (⌊(3/4 : ℚ) * 65535⌋).toNat 2)],
        cacheInsert [] (codes "x") (3/4), none) ∧
    PersonalityEngine.set (codes "x") (3/4) =
      ([(CMD_TRAIT_SET,
          (codes "x" ++ List.replicate (16 - (codes "x").length) 0).take 16 ++
          natToBytesBE (⌊(3/4 : ℚ) * 65535⌋).toNat 2)], none) ∧
    pyInt ((3/4 : ℚ) * 65535) = ⌊(3/4 : ℚ) * 65535⌋ ∧
    (fromBytesBE (natToBytesBE (⌊(3/4 : ℚ) * 65535⌋).toNat 2) : ℤ) =
      ⌊(3/4 : ℚ) * 65535⌋) :=
  ⟨⟨by decide, by norm_num, by norm_num⟩,
    unit_encode_sends_truncated [] (codes "x") (3/4) (by decide)
      (by norm_num) (by norm_num)⟩

/-- C4: for every `v` in [0.0, 1.0], feeding the 2-byte value field that
`set_drive` encoded back through the decode step of `get_drive` yields a float within
1/65535 of `v` (in this exact-rational model of the float arithmetic). -/
theorem unit_value_roundtrip_bound (v : ℚ) (h0 : 0 ≤ v) (h1 : v ≤ 1) :
    (InstinctModel.set_drive [] (codes "x") v).1 =
      [(CMD_SET_DRIVE,
        (codes "x" ++ List.replicate (16 - (codes "x").length) 0).take 16 ++
        natToBytesBE (⌊v * 65535⌋).toNat 2)] ∧
    (InstinctModel.get_drive [] (codes "x")
        (natToBytesBE (⌊v * 65535⌋).toNat 2)).2.2 =
      .ok ((⌊v * 65535⌋.toNat : ℚ) / 65535) ∧
    |(⌊v * 65535⌋.toNat : ℚ) / 65535 - v| ≤ 1 / 65535 := by
  obtain ⟨hb0, hb1⟩ := floor_unit_bounds v h0 h1
  refine ⟨?_, ?_, ?_⟩
  · rw [set_drive_ok [] (codes "x") v (by decide) h0 h1]
  · rw [get_drive_ok [] (codes "x") _ (by decide),
      List.take_of_length_le (le_of_eq (length_natToBytesBE _ 2)),
      fromBytesBE_natToBytesBE_two _ (by omega)]
  · have hcast : (⌊v * 65535⌋.toNat : ℚ) = ((⌊v * 65535⌋ : ℤ) : ℚ) := by
      rw [← Int.cast_natCast, Int.toNat_of_nonneg hb0]
    have hl := Int.floor_le (v * 65535)
    have hg := Int.sub_one_lt_floor (v * 65535)
    have hsplit : ((⌊v * 65535⌋ : ℤ) : ℚ) / 65535 - v =
        (((⌊v * 65535⌋ : ℤ) : ℚ) - v * 65535) / 65535 := by ring
    rw [hcast, abs_le, hsplit]
    constructor
    · calc -(1/65535 : ℚ) = (-1 : ℚ) / 65535 := by ring
        _ ≤ _ := (div_le_div_iff_of_pos_right (show (0:ℚ) < 65535 by norm_num)).mpr
            (by linarith)
    · exact (div_le_div_iff_of_pos_right (show (0:ℚ) < 65535 by norm_num)).mpr (by linarith)

/-- Witness for C4 at `v = 1/3`. -/
theorem unit_value_roundtrip_bound_witness :
    ((0 : ℚ) ≤ 1/3 ∧ (1/3 : ℚ) ≤ 1) ∧
    ((InstinctModel.set_drive [] (codes "x") (1/3)).1 =
      [(CMD_SET_DRIVE,
        (codes "x" ++ List.replicate (16 - (codes "x").length) 0).take 16 ++
        natToBytesBE (⌊(1/3 : ℚ) * 65535⌋).toNat 2)] ∧
    (InstinctModel.get_drive [] (codes "x")
        (natToBytesBE (⌊(1/3 : ℚ) * 65535⌋).toNat 2)).2.2 =
      .ok ((⌊(1/3 : ℚ) * 65535⌋.toNat : ℚ) / 65535) ∧
    |(⌊(1/3 : ℚ) * 65535⌋.toNat : ℚ) / 65535 - 1/3| ≤ 1 / 65535) :=
  ⟨⟨by norm_num, by norm_num⟩,
    unit_value_roundtrip_bound (1/3) (by norm_num) (by norm_num)⟩

/-- C3, counterexample: an empty (hence undersized) reply does NOT make
`get_drive` or the trait `get` surface an error — both silently decode
`raw[:2]` of the short reply and return `0.0`, exactly the default value
`get_trust` returns in the same situation.  `get_trust` is therefore not
the only operation masking an undersized reply. -/
theorem short_reply_masked_counterexample :
    (InstinctModel.get_drive [] (codes "x") []).2.2 = .ok 0 ∧
    (PersonalityEngine.get (codes "x") []).2 = .ok 0 ∧
    (MemoryStore.get_trust (fun _ => List.replicate 8 0) (codes "u") []).2 = 0 := by
  refine ⟨?_, ?_, ?_⟩
  · rw [get_drive_ok [] (codes "x") [] (by decide)]
    simp [fromBytesBE]
  · rw [PersonalityEngine.get, encodeNameField_of_ascii _ 16 (by decide)]
    simp [fromBytesBE]
  · rw [MemoryStore.get_trust, if_pos (by decide)]

/-- C3, amended: neither `get_drive` nor the trait `get` surfaces an error
on a reply shorter than 2 bytes; both decode whatever bytes are present
(`raw[:2]` of a short reply is the reply itself; an empty reply decodes to
0.0, the same default `get_trust` returns).  `get_trust` differs from them
only in checking the length explicitly, not in being the sole operation
that tolerates an undersized reply. -/
theorem short_reply_decoded_without_error (cache : Cache) (name reply : Bytes)
    (hn : name.all (fun b => b < 128) = true) (hr : reply.length < 2) :
    (InstinctModel.get_drive cache name reply).2.2 =
      .ok ((fromBytesBE reply : ℚ) / 65535) ∧
    (PersonalityEngine.get name reply).2 =
      .ok ((fromBytesBE reply : ℚ) / 65535) := by
  have ht : reply.take 2 = reply := List.take_of_length_le (by omega)
  constructor
  · rw [get_drive_ok cache name reply hn, ht]
  · rw [PersonalityEngine.get, encodeNameField_of_ascii _ 16 hn, ht]

/-- Witness for the amended C3 with a 1-byte reply. -/
theorem short_reply_decoded_without_error_witness :
    ((codes "x").all (fun b => b < 128) = true ∧ [(5 : Nat)].length < 2) ∧
    ((InstinctModel.get_drive [] (codes "x") [5]).2.2 =
      .ok ((fromBytesBE [5] : ℚ) / 65535) ∧
    (PersonalityEngine.get (codes "x") [5]).2 =
      .ok ((fromBytesBE [5] : ℚ) / 65535)) :=
  ⟨⟨by decide, by decide⟩,
    short_reply_decoded_without_error [] (codes "x") [5] (by decide) (by decide)⟩

/-- C2, counterexample: `MemoryStore.encode` performs no valence range
validation at all.  At `valence = -1.00001` (outside [-1, 1]) the quantized
integer `int(((v + 1) / 2) * 65535)` truncates toward zero to 0, the record
encodes without any exception, and the `ENCODE` command IS sent — no
`ValidationError`, no error of any kind, and transport I/O happens. -/
theorem encode_no_valence_validation_counterexample :
    ¬ (-1 ≤ (-100001/100000 : ℚ) ∧ (-100001/100000 : ℚ) ≤ 1) ∧
    MemoryStore.encode (fun _ => List.replicate 8 0) (codes "fed") (codes "a")
        (-100001/100000) (some 1000) 1234 =
      .ok (CMD_ENCODE, (codes "fed" ++ List.replicate 21 0) ++
        List.replicate 8 0 ++ [0, 0] ++ [0, 0, 3, 232]) := by
  have hq : pyInt (((-100001/100000 : ℚ) + 1) / 2 * 65535) = 0 := by
    rw [pyInt, if_neg (by norm_num)]
    norm_num
  have ht : pyInt (1000 : ℚ) = 1000 := by
    rw [pyInt, if_pos (by norm_num)]
    norm_num
  constructor
  · rintro ⟨hcon, -⟩
    norm_num at hcon
  · rw [encode_some_ne_zero _ _ _ _ _ _ (by decide) (by norm_num),
      encodeBody_ok _ _ _ _ _ (by decide) (by rw [hq]) (by rw [hq]; norm_num)
        (by rw [ht]; norm_num) (by rw [ht]; norm_num),
      hq, ht]
    exact congrArg Except.ok (by decide)

/-- C2, amended: `MemoryStore.encode` never raises `ValidationError` for an
out-of-range valence (it validates only the event name).  What actually
happens: whenever the quantized integer `int(((v + 1) / 2) * 65535)` falls
outside [0, 65535] the 2-byte conversion raises `OverflowError` — still
before any transport I/O — while out-of-range valences whose quantization
lands inside [0, 65535] (such as `-1.00001`, see the counterexample) are
encoded and transmitted without any error. -/
theorem encode_overflow_not_validation (hashFn : Bytes → Bytes)
    (event uid : Bytes) (v t now : ℚ)
    (hev : event ∈ MemoryStore.EVENT_NAMES) (htz : ¬ t = 0)
    (hq : pyInt ((v + 1) / 2 * 65535) < 0 ∨
      65535 < pyInt ((v + 1) / 2 * 65535)) :
    MemoryStore.encode hashFn event uid v (some t) now =
      .error .overflowError := by
  rw [encode_some_ne_zero _ _ _ _ _ _ hev htz,
    encodeBody_overflow _ _ _ _ _ (event_names_ascii event hev) hq]

/-- Witness for the amended C2 at `valence = 5`. -/
theorem encode_overflow_not_validation_witness :
    (codes "fed" ∈ MemoryStore.EVENT_NAMES ∧ ¬ (1000 : ℚ) = 0 ∧
      65535 < pyInt (((5 : ℚ) + 1) / 2 * 65535)) ∧
    MemoryStore.encode (fun _ => List.replicate 8 0) (codes "fed") (codes "a")
      5 (some 1000) 1234 = .error .overflowError :=
  ⟨⟨by decide, by norm_num, by rw [pyInt, if_pos (by norm_num)]; norm_num⟩,
    encode_overflow_not_validation _ _ _ _ _ _ (by decide) (by norm_num)
      (Or.inr (by rw [pyInt, if_pos (by norm_num)]; norm_num))⟩

/-- C10, counterexample: the clause "only for `int(t) != 0` does the wire
field equal `int(t)`" is false.  At the supplied timestamp `t = 0.5`
(nonzero, hence truthy in Python) the record is transmitted with wire
timestamp field `[0,0,0,0]`, i.e. exactly `int(0.5) = 0`: the wire field
equals `int(t)` even though `int(t) = 0`. -/
theorem encode_fractional_timestamp_counterexample :
    (1/2 : ℚ) ≠ 0 ∧ pyInt (1/2) = 0 ∧
    MemoryStore.encode (fun _ => List.replicate 8 0) (codes "fed") (codes "a")
        0 (some (1/2)) 999 =
      .ok (CMD_ENCODE, (codes "fed" ++ List.replicate 21 0) ++
        List.replicate 8 0 ++ [127, 255] ++ [0, 0, 0, 0]) := by
  have hpt : pyInt (1/2 : ℚ) = 0 := by
    rw [pyInt, if_pos (by norm_num)]
    norm_num
  have hq : pyInt (((0 : ℚ) + 1) / 2 * 65535) = 32767 := by
    rw [pyInt, if_pos (by norm_num)]
    norm_num
  refine ⟨by norm_num, hpt, ?_⟩
  rw [encode_some_ne_zero _ _ _ _ _ _ (by decide) (by norm_num),
    encodeBody_ok _ _ _ _ _ (by decide) (by rw [hq]; norm_num) (by rw [hq]; norm_num)
      (by rw [hpt]) (by rw [hpt]; norm_num),
    hq, hpt]
  exact congrArg Except.ok (by decide)

/-- C10, amended: a supplied timestamp of exactly 0 is falsy in
`timestamp or time.time()`, so the record is transmitted with the current
time (identically to omitting the argument); for every supplied timestamp
`t ≠ 0` whose truncation `int(t)` fits an unsigned 32-bit field, the wire
timestamp field is the 4-byte big-endian encoding of `int(t)` — which is 0,
not an echo of a nonzero `int(t)`, for fractional `t` in (-1, 1). -/
theorem encode_timestamp_policy (hashFn : Bytes → Bytes) (event uid : Bytes)
    (v t now : ℚ) (hev : event ∈ MemoryStore.EVENT_NAMES)
    (hv0 : -1 ≤ v) (hv1 : v ≤ 1) (htz : ¬ t = 0)
    (ht0 : 0 ≤ pyInt t) (ht1 : pyInt t < 4294967296) :
    MemoryStore.encode hashFn event uid v (some t) now =
      .ok (CMD_ENCODE,
        (event ++ List.replicate (24 - event.length) 0).take 24 ++
        hashFn uid ++ natToBytesBE (pyInt ((v + 1) / 2 * 65535)).toNat 2 ++
        natToBytesBE (pyInt t).toNat 4) ∧
    (fromBytesBE (natToBytesBE (pyInt t).toNat 4) : ℤ) = pyInt t ∧
    MemoryStore.encode hashFn event uid v (some 0) now =
      MemoryStore.encode hashFn event uid v none now := by
  obtain ⟨hq0, hq1⟩ := pyInt_bipolar_bounds v hv0 hv1
  refine ⟨?_, ?_, ?_⟩
  · rw [encode_some_ne_zero _ _ _ _ _ _ hev htz,
      encodeBody_ok _ _ _ _ _ (event_names_ascii event hev) hq0 hq1 ht0 ht1]
  · rw [fromBytesBE_natToBytesBE_four _ (by omega)]
    omega
  · rw [encode_of_valid_event _ _ _ _ _ (some 0) hev,
      encode_of_valid_event _ _ _ _ _ none hev]
    dsimp only
    rw [if_pos (show (0 : ℚ) = 0 from rfl)]

/-- Witness for the amended C10 at `t = 1000`, `v = 1`. -/
theorem encode_timestamp_policy_witness :
    (codes "fed" ∈ MemoryStore.EVENT_NAMES ∧ (-1 : ℚ) ≤ 1 ∧ (1 : ℚ) ≤ 1 ∧
      ¬ (1000 : ℚ) = 0 ∧ 0 ≤ pyInt (1000 : ℚ) ∧
      pyInt (1000 : ℚ) < 4294967296) ∧
    (MemoryStore.encode (fun _ => List.replicate 8 0) (codes "fed") (codes "a")
        1 (some 1000) 7 =
      .ok (CMD_ENCODE,
        (codes "fed" ++ List.replicate (24 - (codes "fed").length) 0).take 24 ++
        List.replicate 8 0 ++
        natToBytesBE (pyInt (((1 : ℚ) + 1) / 2 * 65535)).toNat 2 ++
        natToBytesBE (pyInt (1000 : ℚ)).toNat 4) ∧
    (fromBytesBE (natToBytesBE (pyInt (1000 : ℚ)).toNat 4) : ℤ) =
      pyInt (1000 : ℚ) ∧
    MemoryStore.encode (fun _ => List.replicate 8 0) (codes "fed") (codes "a")
        1 (some 0) 7 =
      MemoryStore.encode (fun _ => List.replicate 8 0) (codes "fed") (codes "a")
        1 none 7) :=
  ⟨⟨by decide, by norm_num, by norm_num, by norm_num,
      by rw [pyInt, if_pos (by norm_num)]; norm_num,
      by rw [pyInt, if_pos (by norm_num)]; norm_num⟩,
    encode_timestamp_policy _ _ _ _ _ _ (by decide) (by norm_num) (by norm_num)
      (by norm_num) (by rw [pyInt, if_pos (by norm_num)]; norm_num)
      (by rw [pyInt, if_pos (by norm_num)]; norm_num)⟩

/-- C6, counterexample: on a full 18-byte chunk whose name field holds
invalid (non-ASCII) bytes, the named-value array decoder does not decode
`floor(len/18) = 1` records — it raises `UnicodeDecodeError` (the
DecodingError of the spec) instead, so the claim does not hold for EVERY reply
buffer. -/
theorem named_array_decode_error_counterexample :
    decodeNamedRecords id (List.replicate 18 255) = .error .decodingError ∧
    (List.replicate 18 (255 : Nat)).length / 18 = 1 := by
  have hinv : decodeAsciiStrict
      (rstripZeros (((List.replicate 18 (255 : Nat)).take 18).take 16)) =
      none :=
    decodeAsciiStrict_of_invalid _ 255 (by decide) (by norm_num)
  constructor
  · rw [decodeNamedRecords, dif_neg (by decide)]
    dsimp only
    rw [hinv]
  · decide

/-- C6, amended: for every reply buffer whose full 18-byte chunks all carry
ASCII-decodable (zero-stripped) name fields, the named-value array decoder
used by `list_drives` and `snapshot` returns — without error — exactly
`floor(len(buf)/18)` records, the `k`-th decoded from the `k`-th 18-byte
chunk (order of appearance), silently ignoring a trailing chunk shorter
than 18 bytes.  On a full chunk with an invalid name byte it instead fails
with DecodingError (see the counterexample). -/
theorem named_array_decode_policy (post : ℚ → ℚ) (buf : Bytes)
    (hascii : ∀ k, k < buf.length / 18 →
      (rstripZeros ((buf.drop (18 * k)).take 16)).all
        (fun b => b < 128) = true) :
    decodeNamedRecords post buf =
      .ok ((List.range (buf.length / 18)).map (fun k =>
        namedRecordOfChunk post ((buf.drop (18 * k)).take 18))) ∧
    ((List.range (buf.length / 18)).map (fun k =>
        namedRecordOfChunk post ((buf.drop (18 * k)).take 18))).length =
      buf.length / 18 :=
  ⟨decodeNamedRecords_ok post buf.length buf le_rfl hascii, by simp⟩

/-- Witness for the amended C6: a 20-byte buffer (one full chunk carrying
name `"ab"` and value `0x0102`, plus 2 trailing bytes) decodes to exactly
one record; the trailing 2 bytes are ignored. -/
theorem named_array_decode_policy_witness :
    (∀ k, k < ([97, 98, 0, 0, 0, 0, 0, 0, 0, 0, 0, 0, 0, 0, 0, 0, 1, 2, 9, 9] :
        Bytes).length / 18 →
      (rstripZeros ((([97, 98, 0, 0, 0, 0, 0, 0, 0, 0, 0, 0, 0, 0, 0, 0, 1, 2,
          9, 9] : Bytes).drop (18 * k)).take 16)).all
        (fun b => b < 128) = true) ∧
    (decodeNamedRecords id
        [97, 98, 0, 0, 0, 0, 0, 0, 0, 0, 0, 0, 0, 0, 0, 0, 1, 2, 9, 9] =
      .ok ((List.range (([97, 98, 0, 0, 0, 0, 0, 0, 0, 0, 0, 0, 0, 0, 0, 0, 1,
          2, 9, 9] : Bytes).length / 18)).map (fun k =>
        namedRecordOfChunk id
          ((([97, 98, 0, 0, 0, 0, 0, 0, 0, 0, 0, 0, 0, 0, 0, 0, 1, 2, 9, 9] :
            Bytes).drop (18 * k)).take 18))) ∧
    ((List.range (([97, 98, 0, 0, 0, 0, 0, 0, 0, 0, 0, 0, 0, 0, 0, 0, 1, 2, 9,
        9] : Bytes).length / 18)).map (fun k =>
      namedRecordOfChunk id
        ((([97, 98, 0, 0, 0, 0, 0, 0, 0, 0, 0, 0, 0, 0, 0, 0, 1, 2, 9, 9] :
          Bytes).drop (18 * k)).take 18))).length =
      ([97, 98, 0, 0, 0, 0, 0, 0, 0, 0, 0, 0, 0, 0, 0, 0, 1, 2, 9, 9] :
        Bytes).length / 18) :=
  ⟨fun k hk => by
      have hlen : ([97, 98, 0, 0, 0, 0, 0, 0, 0, 0, 0, 0, 0, 0, 0, 0, 1, 2, 9,
          9] : Bytes).length / 18 = 1 := by decide
      rw [hlen] at hk
      have hk0 : k = 0 := by omega
      subst hk0
      decide,
    named_array_decode_policy id _ (fun k hk => by
      have hlen : ([97, 98, 0, 0, 0, 0, 0, 0, 0, 0, 0, 0, 0, 0, 0, 0, 1, 2, 9,
          9] : Bytes).length / 18 = 1 := by decide
      rw [hlen] at hk
      have hk0 : k = 0 := by omega
      subst hk0
      decide)⟩

/-- C9: name decoding is asymmetric.  For the strict side: whenever the
16-byte name field of a full chunk contains a byte ≥ 128, the named-value
decoder shared by `list_drives` and `snapshot` fails with
`UnicodeDecodeError` (DecodingError).  For the tolerant side: the
episodic decoder of `recall` is total — every decoded event-name character is either
plain ASCII or the substituted replacement character U+FFFD — and a full
38-byte chunk always yields a record (its name `errors="replace"`-decoded),
never an error. -/
theorem name_decode_asymmetry (post : ℚ → ℚ) (nbuf : Bytes) (b : Nat)
    (h18 : 18 ≤ nbuf.length) (hb : b ∈ nbuf.take 16) (h128 : 128 ≤ b) :
    decodeNamedRecords post nbuf = .error .decodingError ∧
    (∀ buf : Bytes, ∀ r ∈ decodeEpisodicRecords buf, ∀ c ∈ r.1,
      c < 128 ∨ c = 65533) ∧
    (∀ buf : Bytes, 38 ≤ buf.length →
      (decodeEpisodicRecords buf).head? = some
        (decodeAsciiReplace (rstripZeros ((buf.take 38).take 24)),
         pyRound4 ((fromBytesBE (((buf.take 38).drop 32).take 2) : ℚ) /
           65535 * 2 - 1),
         fromBytesBE (((buf.take 38).drop 34).take 4))) := by
  refine ⟨?_, ?_, ?_⟩
  · have hmem : b ∈ rstripZeros ((nbuf.take 18).take 16) := by
      rw [List.take_take, show (16 ⊓ 18 : Nat) = 16 from rfl]
      exact mem_rstripZeros _ b hb (by omega)
    rw [decodeNamedRecords, dif_neg (by omega)]
    dsimp only
    rw [decodeAsciiStrict_of_invalid _ b hmem h128]
  · intro buf r hr c hc
    obtain ⟨raw, hraw⟩ := decodeEpisodicRecords_events buf.length buf le_rfl r hr
    rw [hraw] at hc
    exact decodeAsciiReplace_mem raw c hc
  · intro buf hlen
    rw [decodeEpisodicRecords, dif_neg (by omega)]
    dsimp only
    rw [List.head?_cons]

/-- Witness for C9 on an 18-byte all-`0xFF` named-value reply. -/
theorem name_decode_asymmetry_witness :
    (18 ≤ (List.replicate 18 (255 : Nat)).length ∧
      (255 : Nat) ∈ (List.replicate 18 (255 : Nat)).take 16 ∧
      128 ≤ (255 : Nat)) ∧
    (decodeNamedRecords pyRound4 (List.replicate 18 255) =
      .error .decodingError ∧
    (∀ buf : Bytes, ∀ r ∈ decodeEpisodicRecords buf, ∀ c ∈ r.1,
      c < 128 ∨ c = 65533) ∧
    (∀ buf : Bytes, 38 ≤ buf.length →
      (decodeEpisodicRecords buf).head? = some
        (decodeAsciiReplace (rstripZeros ((buf.take 38).take 24)),
         pyRound4 ((fromBytesBE (((buf.take 38).drop 32).take 2) : ℚ) /
           65535 * 2 - 1),
         fromBytesBE (((buf.take 38).drop 34).take 4)))) :=
  ⟨⟨by decide, by decide, by decide⟩,
    name_decode_asymmetry pyRound4 (List.replicate 18 255) 255 (by decide)
      (by decide) (by decide)⟩

/-- C5, counterexample: the ASCII name `"a\x00"` (codes `[97, 0]`, byte
length 2 ≤ 16) does not survive the round trip: the fixed-width field
zero-pads it, and decoding strips ALL trailing zero bytes — including the
one that belonged to the name — returning `"a"` (`[97]`), not the original
name.  The claim fails for every ASCII name ending in a NUL byte. -/
theorem name_roundtrip_counterexample :
    ([97, 0] : Bytes).length ≤ 16 ∧
    ([97, 0] : Bytes).all (fun b => b < 128) = true ∧
    encodeNameField [97, 0] 16 = some ([97, 0] ++ List.replicate 14 0) ∧
    decodeAsciiStrict (rstripZeros ([97, 0] ++ List.replicate 14 0)) =
      some [97] ∧
    ([97] : Bytes) ≠ [97, 0] := by decide

/-- C5, amended: for every ASCII name `n`: the encoded field is always
exactly `width` bytes; if the byte length of `n` is at most the width AND `n`
does not end in a zero byte (`rstripZeros n = n`), decoding the field
(strip trailing zero bytes, ASCII decode) returns `n`; in every case —
including names exceeding the width, which are silently truncated —
decoding succeeds (never an error) and yields a prefix of `n`, namely the
zero-stripped first `width` bytes of `n`. -/
theorem name_field_roundtrip (n : Bytes) (w : Nat)
    (hn : n.all (fun b => b < 128) = true) :
    encodeNameField n w = some ((n ++ List.replicate (w - n.length) 0).take w) ∧
    ((n ++ List.replicate (w - n.length) 0).take w).length = w ∧
    (n.length ≤ w → rstripZeros n = n →
      decodeAsciiStrict
        (rstripZeros ((n ++ List.replicate (w - n.length) 0).take w)) =
        some n) ∧
    decodeAsciiStrict
      (rstripZeros ((n ++ List.replicate (w - n.length) 0).take w)) =
      some (rstripZeros (n.take w)) ∧
    rstripZeros (n.take w) <+: n := by
  have hallTake : (n.take w).all (fun b => b < 128) = true := by
    rw [List.all_eq_true] at hn ⊢
    exact fun b hb => hn b (List.take_subset w n hb)
  have hstripAll := rstripZeros_all _ _ hallTake
  refine ⟨encodeNameField_of_ascii n w hn, ?_, ?_, ?_, ?_⟩
  · rw [List.length_take, List.length_append, List.length_replicate]
    omega
  · intro hle hself
    rw [take_pad_eq, List.take_of_length_le hle, rstripZeros_append_replicate,
      hself, decodeAsciiStrict_of_ascii _ hn]
  · rw [take_pad_eq, rstripZeros_append_replicate,
      decodeAsciiStrict_of_ascii _ hstripAll]
  · obtain ⟨k, hdec⟩ := rstripZeros_decomp (n.take w)
    exact ⟨List.replicate k 0 ++ n.drop w, by
      rw [← List.append_assoc, ← hdec, List.take_append_drop]⟩

/-- Witness for the amended C5 at `n = "ab"`, `w = 16`. -/
theorem name_field_roundtrip_witness :
    (([97, 98] : Bytes).all (fun b => b < 128) = true) ∧
    (encodeNameField [97, 98] 16 =
      some (([97, 98] ++
        List.replicate (16 - ([97, 98] : Bytes).length) 0).take 16) ∧
    (([97, 98] ++
        List.replicate (16 - ([97, 98] : Bytes).length) 0).take 16).length = 16 ∧
    (([97, 98] : Bytes).length ≤ 16 → rstripZeros [97, 98] = [97, 98] →
      decodeAsciiStrict
        (rstripZeros (([97, 98] ++
          List.replicate (16 - ([97, 98] : Bytes).length) 0).take 16)) =
        some [97, 98]) ∧
    decodeAsciiStrict
      (rstripZeros (([97, 98] ++
        List.replicate (16 - ([97, 98] : Bytes).length) 0).take 16)) =
      some (rstripZeros (([97, 98] : Bytes).take 16)) ∧
    rstripZeros (([97, 98] : Bytes).take 16) <+: [97, 98]) :=
  ⟨by decide, name_field_roundtrip [97, 98] 16 (by decide)⟩

/-- C7: for every weight outside [0.0, 1.0], `set_drive` raises
`ValueError` (the ValidationError of the spec), performs zero transport calls
(empty send list) and leaves the host-side cache unchanged.  The check is
the first statement of the method, before any encoding. -/
theorem set_drive_out_of_range_rejected (cache : Cache) (name : Bytes)
    (w : ℚ) (h : w < 0 ∨ 1 < w) :
    InstinctModel.set_drive cache name w = ([], cache, some .validationError) := by
  have hc : ¬ (0 ≤ w ∧ w ≤ 1) := by
    rcases h with h | h
    · exact fun hh => absurd hh.1 (not_le.mpr h)
    · exact fun hh => absurd hh.2 (not_le.mpr h)
  rw [InstinctModel.set_drive, if_pos hc]

/-- Witness for C7 at `weight = 1.5`. -/
theorem set_drive_out_of_range_rejected_witness :
    ((3/2 : ℚ) < 0 ∨ 1 < (3/2 : ℚ)) ∧
    InstinctModel.set_drive [] (codes "x") (3/2) =
      ([], [], some .validationError) :=
  ⟨Or.inr (by norm_num),
    set_drive_out_of_range_rejected [] (codes "x") (3/2) (Or.inr (by norm_num))⟩

/-- C8: for every uid and every transport reply shorter than 2 bytes,
`get_trust` returns exactly 0.0 (after having sent the `TRUST` command with
the hashed uid) and raises nothing — the function is total. -/
theorem get_trust_short_reply_default (hashFn : Bytes → Bytes)
    (uid reply : Bytes) (h : reply.length < 2) :
    MemoryStore.get_trust hashFn uid reply = ([(CMD_TRUST, hashFn uid)], 0) := by
  rw [MemoryStore.get_trust, if_pos h]

/-- Witness for C8: a 1-byte reply against an unknown uid yields 0.0. -/
theorem get_trust_short_reply_default_witness :
    ([(7 : Nat)].length < 2) ∧
    MemoryStore.get_trust (fun _ => List.replicate 8 0) (codes "unknown-uid")
      [7] = ([(CMD_TRUST, List.replicate 8 0)], 0) :=
  ⟨by decide,
    get_trust_short_reply_default (fun _ => List.replicate 8 0)
      (codes "unknown-uid") [7] (by decide)⟩

end Ruby
